import Mathlib

/-
Shallow embedding of the notebook
`VGG-16/VGG16_FeatureExtraction_OCT2017_Retina_Kaggle` (PyTorch transfer
learning of vgg16_bn on the OCT2017 retina dataset, 4 classes, batch size 8).

The embedding follows the notebook's cells:
  * the model-creation cell (freeze loop over `vgg16.features.parameters()`
    and classifier-head replacement),
  * `eval_model` (test-split evaluation),
  * `train_model` (epoch loop with half-sized training pass, full validation
    pass, best-snapshot tracking, restore-and-return),
  * `visualize_model` (whole-batch display with an image-count break and
    train-mode save/restore).
-/

namespace OCTRetina

/-! ## Model parameters and the freeze loop (model-creation cell) -/

/-- A model parameter viewed as a Python object: the real autograd flag
`requires_grad`, plus the dynamic attribute dictionary that a plain
assignment to any other attribute name extends (Python `setattr` creates a
fresh attribute instead of failing). -/
structure Param where
  requiresGrad : Bool
  attrs : List (String × Bool)
deriving DecidableEq

/-- Python attribute assignment `p.<name> = v` on a parameter: writing the
attribute named `requires_grad` changes the autograd flag; any other name
merely lands in the object's attribute dictionary and the flag is untouched. -/
def Param.setAttr (p : Param) (name : String) (v : Bool) : Param :=
  if name = "requires_grad" then { p with requiresGrad := v }
  else { p with attrs := (name, v) :: p.attrs }

/-- The freeze loop of the model-creation cell, exactly as written in the
source: `for param in vgg16.features.parameters(): param.require_grad = False`.
The attribute name written there is `require_grad` (no `s`). -/
def freezeFeatures (ps : List Param) : List Param :=
  ps.map (fun p => p.setAttr "require_grad" false)

/-- A parameter of the freshly loaded pretrained backbone: PyTorch
parameters default to `requires_grad = True` and an empty extra-attribute
dictionary. -/
def pretrainedParam : Param := { requiresGrad := true, attrs := [] }

/-! ## Classifier head replacement (model-creation cell) -/

/-- A layer of the `nn.Sequential` classifier, as far as the adapter cell
inspects it: linear layers carry their in/out feature counts. -/
inductive Layer where
  | linear (inFeatures outFeatures : ℕ)
  | relu
  | dropout
deriving DecidableEq

/-- The `in_features` attribute read by `vgg16.classifier[6].in_features`. -/
def Layer.inFeat : Layer → ℕ
  | .linear i _ => i
  | .relu => 0
  | .dropout => 0

/-- The `out_features` attribute of a linear layer. -/
def Layer.outFeat : Layer → ℕ
  | .linear _ o => o
  | .relu => 0
  | .dropout => 0

/-- The classifier of torchvision `vgg16_bn`: three linear layers
25088 → 4096 → 4096 → 1000 with ReLU/Dropout pairs between them; index 6 is
the final `Linear(4096, 1000)` and index 3 the penultimate linear layer. -/
def vgg16bnClassifier : List Layer :=
  [Layer.linear 25088 4096, Layer.relu, Layer.dropout,
   Layer.linear 4096 4096, Layer.relu, Layer.dropout,
   Layer.linear 4096 1000]

/-- Class names derived from the training split's class directories
(`image_datasets[TRAIN].classes`); OCT2017 has these four. -/
def classNames : List String := ["CNV", "DME", "DRUSEN", "NORMAL"]

/-- The head-replacement lines of the model-creation cell:
`num_features = vgg16.classifier[6].in_features`;
`features = list(vgg16.classifier.children())[:-1]`;
`features.extend([nn.Linear(num_features, len(class_names))])`;
`vgg16.classifier = nn.Sequential(*features)`. -/
def replaceHead (classifier : List Layer) (numClasses : ℕ) : List Layer :=
  let numFeatures := (classifier.getD 6 Layer.relu).inFeat
  classifier.dropLast ++ [Layer.linear numFeatures numClasses]

/-! ## Theorems for the Model Adapter claims -/

/-- C1: the spec claims every backbone (features) parameter is marked
non-trainable after the adapter runs.  The freeze loop assigns the
misspelled attribute `require_grad`, so on a pretrained parameter the real
`requires_grad` flag is still `true` afterwards; the typo only adds a stray
dictionary entry.  The backbone therefore remains trainable, contradicting
the code's own "Freeze training for all layers" comment. -/
theorem freeze_loop_typo_keeps_backbone_trainable :
    freezeFeatures [pretrainedParam, pretrainedParam]
      = [{ requiresGrad := true, attrs := [("require_grad", false)] },
         { requiresGrad := true, attrs := [("require_grad", false)] }] := rfl

/-- C6: after the adapter runs, the classifier's final layer is a new linear
layer whose input width is `classifier[6].in_features` = 4096 — the
penultimate linear layer's output width — and whose output feature count is
`len(class_names)`, with `class_names` the 4 training-split directories. -/
theorem replace_head_final_layer :
    (∀ n : ℕ, (replaceHead vgg16bnClassifier n).getLast?
        = some (Layer.linear 4096 n))
    ∧ (vgg16bnClassifier.getD 6 Layer.relu).inFeat
        = (vgg16bnClassifier.getD 3 Layer.relu).outFeat
    ∧ (replaceHead vgg16bnClassifier classNames.length).getLast?
        = some (Layer.linear 4096 4)
    ∧ classNames.length = 4 :=
  ⟨fun _ => rfl, rfl, rfl, rfl⟩

/-! ## The test split and the DataLoader's batching -/

/-- One test image as the fixed model under evaluation sees it: the
cross-entropy loss the criterion assigns to it and whether `torch.max` picks
the correct class.  For a fixed model and a fixed split these are fixed;
only the order in which the shuffled loader delivers the samples varies. -/
structure Sample where
  loss : ℚ
  correct : Bool
deriving DecidableEq

/-- Fuel-indexed batching helper; the fuel is an upper bound on the list
length, so recursion is structural. -/
def chunksAux {α : Type} (bs : ℕ) : ℕ → List α → List (List α)
  | 0, _ => []
  | _ + 1, [] => []
  | fuel + 1, x :: xs => ((x :: xs).take bs) :: chunksAux bs fuel ((x :: xs).drop bs)

/-- The batches a `DataLoader` with batch size `bs` (`drop_last` unset)
delivers over samples in order `l`: consecutive chunks of `bs` samples, the
last one possibly shorter. -/
def chunks {α : Type} (bs : ℕ) (l : List α) : List (List α) :=
  chunksAux bs l.length l

theorem chunksAux_nil {α : Type} (bs f : ℕ) : chunksAux bs f ([] : List α) = [] := by
  cases f <;> rfl

theorem chunksAux_fuel_irrel {α : Type} (bs : ℕ) (hbs : bs ≠ 0) :
    ∀ (f g : ℕ) (l : List α), l.length ≤ f → l.length ≤ g →
      chunksAux bs f l = chunksAux bs g l := by
  intro f
  induction f with
  | zero =>
    intro g l hf _
    have hl : l = [] := List.eq_nil_of_length_eq_zero (Nat.le_zero.mp hf)
    rw [hl, chunksAux_nil, chunksAux_nil]
  | succ f ih =>
    intro g l hf hg
    cases l with
    | nil => rw [chunksAux_nil, chunksAux_nil]
    | cons x xs =>
      cases g with
      | zero => simp at hg
      | succ g =>
        simp only [chunksAux]
        have hx : ((x :: xs).drop bs).length ≤ f := by
          simp only [List.length_drop, List.length_cons] at *
          omega
        have hy : ((x :: xs).drop bs).length ≤ g := by
          simp only [List.length_drop, List.length_cons] at *
          omega
        rw [ih g ((x :: xs).drop bs) hx hy]

theorem chunks_nil {α : Type} (bs : ℕ) : chunks bs ([] : List α) = [] := rfl

theorem chunks_cons {α : Type} (bs : ℕ) (hbs : bs ≠ 0) (l : List α) (hl : l ≠ []) :
    chunks bs l = l.take bs :: chunks bs (l.drop bs) := by
  cases l with
  | nil => exact absurd rfl hl
  | cons x xs =>
    show chunksAux bs (xs.length + 1) (x :: xs) = _
    simp only [chunksAux]
    have hx : ((x :: xs).drop bs).length ≤ xs.length := by
      simp only [List.length_drop, List.length_cons]
      omega
    rw [chunksAux_fuel_irrel bs hbs xs.length ((x :: xs).drop bs).length
      ((x :: xs).drop bs) hx (Nat.le_refl _)]
    rfl

/-! ## The Evaluation Routine `eval_model` -/

/-- The per-batch value `loss = criterion(outputs, labels)` accumulated by
`loss_test += loss.data[0]`: the criterion is `nn.CrossEntropyLoss()` with
its default mean reduction, so one batch contributes the mean of its
per-sample losses. -/
def batchMeanLoss (b : List Sample) : ℚ := (b.map Sample.loss).sum / (b.length : ℚ)

/-- The per-batch value `torch.sum(preds == labels.data)` accumulated by
`acc_test`. -/
def batchCorrect (b : List Sample) : ℕ := (b.filter (fun s => s.correct)).length

/-- The accumulator `loss_test` at the end of `eval_model`: per-batch mean
losses summed over every batch of the test loader. -/
def lossTest (bs : ℕ) (test : List Sample) : ℚ :=
  ((chunks bs test).map batchMeanLoss).sum

/-- The accumulator `acc_test` at the end of `eval_model`: correct
predictions summed over every batch of the test loader. -/
def accTest (bs : ℕ) (test : List Sample) : ℕ :=
  ((chunks bs test).map batchCorrect).sum

/-- The local `avg_loss = loss_test / dataset_sizes[TEST]` of `eval_model`. -/
def avgLoss (bs : ℕ) (test : List Sample) : ℚ := lossTest bs test / (test.length : ℚ)

/-- The local `avg_acc = acc_test / dataset_sizes[TEST]` of `eval_model`. -/
def avgAcc (bs : ℕ) (test : List Sample) : ℚ := (accTest bs test : ℚ) / (test.length : ℚ)

/-- Shallow embedding of the result value of `eval_model`: the function computes
`avg_loss` and `avg_acc`, prints them, and its body ends with no `return`
statement, so the Python call returns `None`. -/
def evalModel (bs : ℕ) (test : List Sample) : Option (ℚ × ℚ) :=
  let _avg_loss := avgLoss bs test
  let _avg_acc := avgAcc bs test
  none

/-- Summing the per-batch correct counts over the loader's batches counts
exactly the correct samples of the whole split. -/
theorem accTest_eq_filter_length (bs : ℕ) (hbs : bs ≠ 0) :
    ∀ (n : ℕ) (l : List Sample), l.length ≤ n →
      accTest bs l = (l.filter (fun s => s.correct)).length := by
  intro n
  induction n with
  | zero =>
    intro l hl
    have : l = [] := List.eq_nil_of_length_eq_zero (Nat.le_zero.mp hl)
    subst this
    rfl
  | succ n ih =>
    intro l hl
    by_cases hnil : l = []
    · subst hnil; rfl
    · have hstep : accTest bs l = batchCorrect (l.take bs) + accTest bs (l.drop bs) := by
        unfold accTest
        rw [chunks_cons bs hbs l hnil]
        simp [List.map_cons, List.sum_cons]
      have hdrop : (l.drop bs).length ≤ n := by
        have h1 : 1 ≤ l.length := List.length_pos.mpr hnil
        simp only [List.length_drop]
        omega
      have hsplit := List.take_append_drop bs l
      rw [hstep, ih (l.drop bs) hdrop]
      conv_rhs => rw [← hsplit]
      simp only [batchCorrect, List.filter_append, List.length_append]

/-- A concrete one-sample test split used to evaluate `eval_model`. -/
def testSplit1 : List Sample := [{ loss := 2, correct := true }]

/-- C2 counterexample: `eval_model` does not return the averaged loss and
accuracy as its result value — it returns `None` — even though its locals
`avg_loss` and `avg_acc` hold the averages (here 2 and 1). -/
theorem eval_model_returns_none :
    evalModel 8 testSplit1 ≠ some (avgLoss 8 testSplit1, avgAcc 8 testSplit1)
    ∧ avgLoss 8 testSplit1 = 2 ∧ avgAcc 8 testSplit1 = 1 := by
  refine ⟨?_, ?_, ?_⟩
  · intro h
    exact Option.noConfusion h
  · norm_num [avgLoss, lossTest, chunks, chunksAux, batchMeanLoss, testSplit1]
  · norm_num [avgAcc, accTest, chunks, chunksAux, batchCorrect, testSplit1]

/-- C2 amended: `eval_model` accumulates loss and correct-prediction counts
over the whole test split and computes the averages by dividing each
accumulated total by the test-split sample count — `avg_acc` equals the
total correct count over the sample count — but it only prints them; its
result value is `None`. -/
theorem eval_model_computes_averages (bs : ℕ) (hbs : bs ≠ 0) (test : List Sample) :
    evalModel bs test = none
    ∧ avgAcc bs test
        = ((test.filter (fun s => s.correct)).length : ℚ) / (test.length : ℚ)
    ∧ avgLoss bs test = lossTest bs test / (test.length : ℚ) := by
  refine ⟨rfl, ?_, rfl⟩
  unfold avgAcc
  rw [accTest_eq_filter_length bs hbs test.length test (Nat.le_refl _)]

/-- Witness for the C2 amended theorem at batch size 8 and a concrete split. -/
theorem eval_model_computes_averages_witness :
    evalModel 8 testSplit1 = none
    ∧ avgAcc 8 testSplit1
        = ((testSplit1.filter (fun s => s.correct)).length : ℚ) / (testSplit1.length : ℚ)
    ∧ avgLoss 8 testSplit1 = lossTest 8 testSplit1 / (testSplit1.length : ℚ) :=
  eval_model_computes_averages 8 (by decide) testSplit1

/-! ## Dependence of the evaluation result on the shuffled batch order -/

/-- When the batch size divides the sample count every delivered batch is
full, and summing the per-batch mean losses equals the total per-sample
loss divided by the batch size. -/
theorem lossTest_eq_of_dvd (bs : ℕ) (hbs : bs ≠ 0) :
    ∀ (n : ℕ) (l : List Sample), l.length ≤ n → bs ∣ l.length →
      lossTest bs l = (l.map Sample.loss).sum / (bs : ℚ) := by
  intro n
  induction n with
  | zero =>
    intro l hl _
    have : l = [] := List.eq_nil_of_length_eq_zero (Nat.le_zero.mp hl)
    subst this
    simp [lossTest, chunks_nil]
  | succ n ih =>
    intro l hl hdvd
    by_cases hnil : l = []
    · subst hnil; simp [lossTest, chunks_nil]
    · have hpos : 1 ≤ l.length := List.length_pos.mpr hnil
      have hbsle : bs ≤ l.length := Nat.le_of_dvd (Nat.lt_of_lt_of_le Nat.zero_lt_one hpos) hdvd
      have htake : (l.take bs).length = bs := by
        simp only [List.length_take]
        omega
      have hstep : lossTest bs l = batchMeanLoss (l.take bs) + lossTest bs (l.drop bs) := by
        unfold lossTest
        rw [chunks_cons bs hbs l hnil]
        simp [List.map_cons, List.sum_cons]
      have hdrop : (l.drop bs).length ≤ n := by
        simp only [List.length_drop]
        omega
      have hdvddrop : bs ∣ (l.drop bs).length := by
        simp only [List.length_drop]
        exact Nat.dvd_sub' hdvd (Nat.dvd_refl bs)
      have hmean : batchMeanLoss (l.take bs) = ((l.take bs).map Sample.loss).sum / (bs : ℚ) := by
        unfold batchMeanLoss
        rw [htake]
      have hsplit := List.take_append_drop bs l
      rw [hstep, ih (l.drop bs) hdrop hdvddrop, hmean, div_add_div_same]
      conv_rhs => rw [← hsplit]
      rw [List.map_append, List.sum_append]

/-- A correctly classified sample with zero loss. -/
def zeroSample : Sample := { loss := 0, correct := true }

/-- A correctly classified sample with loss 8. -/
def bigSample : Sample := { loss := 8, correct := true }

/-- One shuffle order of a 9-sample test split (batch size 8: one full batch
and a ragged final batch). -/
def splitInOrder : List Sample :=
  [zeroSample, zeroSample, zeroSample, zeroSample,
   zeroSample, zeroSample, zeroSample, zeroSample, bigSample]

/-- Another shuffle order of the same 9-sample multiset. -/
def splitShuffled : List Sample :=
  [bigSample, zeroSample, zeroSample, zeroSample,
   zeroSample, zeroSample, zeroSample, zeroSample, zeroSample]

/-- The two concrete orders hold the same multiset of samples. -/
theorem splitInOrder_perm_splitShuffled : splitInOrder.Perm splitShuffled :=
  List.perm_append_singleton bigSample
    [zeroSample, zeroSample, zeroSample, zeroSample,
     zeroSample, zeroSample, zeroSample, zeroSample]

/-- C5 counterexample: the test loader shuffles (`shuffle=True` for TEST),
and `eval_model` divides a sum of per-batch mean losses by the sample count.
With 9 samples and batch size 8 the ragged last batch makes the averaged
loss depend on the delivered order: the same multiset of samples yields
8/9 in one order and 1/9 in another, so two calls need not return identical
averaged loss.  The averaged accuracy does coincide. -/
theorem eval_loss_depends_on_shuffle :
    splitInOrder.Perm splitShuffled
    ∧ avgLoss 8 splitInOrder ≠ avgLoss 8 splitShuffled
    ∧ avgAcc 8 splitInOrder = avgAcc 8 splitShuffled := by
  have hchunks1 : chunks 8 splitInOrder
      = [[zeroSample, zeroSample, zeroSample, zeroSample,
          zeroSample, zeroSample, zeroSample, zeroSample], [bigSample]] := rfl
  have hchunks2 : chunks 8 splitShuffled
      = [[bigSample, zeroSample, zeroSample, zeroSample,
          zeroSample, zeroSample, zeroSample, zeroSample], [zeroSample]] := rfl
  refine ⟨splitInOrder_perm_splitShuffled, ?_, ?_⟩
  · unfold avgLoss lossTest
    rw [hchunks1, hchunks2]
    norm_num [batchMeanLoss, zeroSample, bigSample, splitInOrder, splitShuffled]
  · unfold avgAcc accTest
    rw [hchunks1, hchunks2]
    norm_num [batchCorrect, zeroSample, bigSample, splitInOrder, splitShuffled]

/-- C5 amended: for a fixed model and a fixed test-split multiset, two calls
of the Evaluation Routine return identical averaged accuracy whatever orders
the shuffled loader delivers; the averaged loss is also identical whenever
the batch size divides the sample count (all batches full), though not in
general for a ragged last batch. -/
theorem eval_results_under_reshuffle (bs : ℕ) (hbs : bs ≠ 0) (t u : List Sample)
    (hperm : t.Perm u) :
    avgAcc bs t = avgAcc bs u
    ∧ (bs ∣ t.length → avgLoss bs t = avgLoss bs u) := by
  have hlen := hperm.length_eq
  constructor
  · unfold avgAcc
    rw [accTest_eq_filter_length bs hbs t.length t (Nat.le_refl _),
        accTest_eq_filter_length bs hbs u.length u (Nat.le_refl _),
        ← hlen, (hperm.filter (fun s => s.correct)).length_eq]
  · intro hdvd
    unfold avgLoss
    rw [lossTest_eq_of_dvd bs hbs t.length t (Nat.le_refl _) hdvd,
        lossTest_eq_of_dvd bs hbs u.length u (Nat.le_refl _) (hlen ▸ hdvd),
        ← hlen, (hperm.map Sample.loss).sum_eq]

/-- Witness for the C5 amended theorem: batch size 8 on the two concrete
orders of the 9-sample split above. -/
theorem eval_results_under_reshuffle_witness :
    avgAcc 8 splitInOrder = avgAcc 8 splitShuffled
    ∧ (8 ∣ splitInOrder.length → avgLoss 8 splitInOrder = avgLoss 8 splitShuffled) :=
  eval_results_under_reshuffle 8 (by decide) splitInOrder splitShuffled
    splitInOrder_perm_splitShuffled

/-! ## Batch counts of the Training Loop -/

/-- The value `len(dataloaders[x])` : a `DataLoader` with batch size `bs` and
`drop_last` unset reports `ceil(n / bs)` batches over `n` samples. -/
def numBatches (bs n : ℕ) : ℕ := (n + bs - 1) / bs

/-- The number of training steps one epoch of `train_model` performs: the
loop enumerates the loader's batches `i = 0, 1, ...` and executes
`if i >= train_batches / 2: break` before the batch body, where
`train_batches / 2` is Python true division (the notebook imports
`division` from `__future__`). -/
def trainStepsRun (trainBatches : ℕ) : ℕ :=
  ((List.range trainBatches).takeWhile
    (fun i : ℕ => decide ((i : ℚ) < (trainBatches : ℚ) / 2))).length

/-- The loader's batch count equals `ceil(n / bs)`. -/
theorem chunks_length_eq {α : Type} (bs : ℕ) (hbs : bs ≠ 0) :
    ∀ (n : ℕ) (l : List α), l.length ≤ n →
      (chunks bs l).length = (l.length + bs - 1) / bs := by
  intro n
  induction n with
  | zero =>
    intro l hl
    have h0 : l = [] := List.eq_nil_of_length_eq_zero (Nat.le_zero.mp hl)
    subst h0
    rw [chunks_nil]
    simp only [List.length_nil]
    exact (Nat.div_eq_of_lt (by omega)).symm
  | succ n ih =>
    intro l hl
    by_cases hnil : l = []
    · subst hnil
      rw [chunks_nil]
      simp only [List.length_nil]
      exact (Nat.div_eq_of_lt (by omega)).symm
    · have hpos : 1 ≤ l.length := List.length_pos.mpr hnil
      have hdroplen : (l.drop bs).length ≤ n := by
        simp only [List.length_drop]
        omega
      have hbs1 : 0 < bs := Nat.pos_of_ne_zero hbs
      rw [chunks_cons bs hbs l hnil]
      simp only [List.length_cons]
      rw [ih (l.drop bs) hdroplen]
      simp only [List.length_drop]
      rcases le_or_lt bs l.length with hge | hlt
      · have h1 : l.length - bs + bs - 1 = l.length - 1 := by omega
        have h2 : l.length + bs - 1 = l.length - 1 + bs := by omega
        rw [h1, h2, Nat.add_div_right _ hbs1]
      · have h1 : l.length - bs + bs - 1 = bs - 1 := by omega
        have h2 : l.length + bs - 1 = l.length - 1 + bs := by omega
        rw [h1, h2, Nat.add_div_right _ hbs1,
            Nat.div_eq_of_lt (by omega : bs - 1 < bs),
            Nat.div_eq_of_lt (by omega : l.length - 1 < bs)]

/-- C3: over the spec's scenario (training split of 1000 images, batch size
8) the loader reports ceil(1000/8) = 125 batches, the half-pass break makes
the epoch perform exactly 63 = ceil(500/8) training steps — the last batch
trained has index 62 — and the validation loop, which has no break, performs
ceil(val_size/8) steps, one per validation batch. -/
theorem half_pass_and_validation_step_counts :
    numBatches 8 1000 = 125
    ∧ trainStepsRun 125 = 63
    ∧ numBatches 8 500 = 63
    ∧ ∀ (val : List Sample), (chunks 8 val).length = numBatches 8 val.length := by
  refine ⟨rfl, ?_, rfl, fun val => chunks_length_eq 8 (by decide) val.length val (Nat.le_refl _)⟩
  unfold trainStepsRun
  have hpred : (fun i : ℕ => decide ((i : ℚ) < ((125 : ℕ) : ℚ) / 2))
      = (fun i : ℕ => decide (i ≤ 62)) := by
    funext i
    rw [decide_eq_decide]
    rw [lt_div_iff₀ (by norm_num : (0:ℚ) < 2)]
    constructor
    · intro h
      have h2 : i * 2 < 125 := by exact_mod_cast h
      omega
    · intro h
      have h2 : i * 2 < 125 := by omega
      exact_mod_cast h2
  rw [hpred]
  decide

/-! ## The epoch loop of `train_model` -/

/-- The state the validation loop threads through one epoch, paired with the
running accumulators `loss_val` and `acc_val`: the network state is the
parameter vector plus the gradient buffers that `optimizer.zero_grad()`
clears (both abstracted as tokens). -/
structure NetState where
  params : ℕ
  grads : ℕ
deriving DecidableEq

/-- One validation batch of `train_model`: inputs are wrapped with
`volatile=True` (autograd disabled), `optimizer.zero_grad()` clears the
gradient buffers, the forward pass and the loss are computed and the
accumulators grow; the body contains no `loss.backward()` and no
`optimizer.step()`, so the parameters are untouched. -/
def valBatchStep (s : NetState × ℚ × ℕ) (b : List Sample) : NetState × ℚ × ℕ :=
  ({ params := s.1.params, grads := 0 }, s.2.1 + batchMeanLoss b, s.2.2 + batchCorrect b)

/-- The validation loop of an epoch: a plain `for` over every batch the
validation loader delivers (it has no break). -/
def valPhase (net : NetState) (valBatches : List (List Sample)) : NetState × ℚ × ℕ :=
  valBatches.foldl valBatchStep (net, 0, 0)

theorem valPhase_foldl (valBatches : List (List Sample)) :
    ∀ (s : NetState × ℚ × ℕ),
      (valBatches.foldl valBatchStep s).1.params = s.1.params
      ∧ (valBatches.foldl valBatchStep s).2.1
          = s.2.1 + (valBatches.map batchMeanLoss).sum
      ∧ (valBatches.foldl valBatchStep s).2.2
          = s.2.2 + (valBatches.map batchCorrect).sum := by
  induction valBatches with
  | nil =>
    intro s
    simp
  | cons b rest ih =>
    intro s
    simp only [List.foldl_cons, List.map_cons, List.sum_cons]
    obtain ⟨h1, h2, h3⟩ := ih (valBatchStep s b)
    refine ⟨h1, ?_, ?_⟩
    · rw [h2]
      show s.2.1 + batchMeanLoss b + _ = _
      ring
    · rw [h3]
      show s.2.2 + batchCorrect b + _ = _
      omega

/-- C7: in every epoch the validation phase folds over the entire validation
split — the accumulated loss and correct-prediction count at its end cover
every delivered batch — and the parameter vector after the phase is exactly
the parameter vector before it: no model parameter is updated. -/
theorem validation_phase_totals_and_frame (net : NetState) (valBatches : List (List Sample)) :
    (valPhase net valBatches).1.params = net.params
    ∧ (valPhase net valBatches).2.1 = (valBatches.map batchMeanLoss).sum
    ∧ (valPhase net valBatches).2.2 = (valBatches.map batchCorrect).sum := by
  unfold valPhase
  obtain ⟨h1, h2, h3⟩ := valPhase_foldl valBatches (net, 0, 0)
  refine ⟨h1, ?_, ?_⟩
  · rw [h2]
    show 0 + _ = _
    ring
  · rw [h3]
    show 0 + _ = _
    omega

/-! ## Best-snapshot tracking across epochs in `train_model` -/

/-- What one epoch does, abstracted over the framework-supplied numerics:
`trainPhase e p` is the parameter vector after the half-sized training pass
of epoch `e` starting from parameters `p` (forward, cross-entropy loss,
backward, SGD step on each trained batch), and `valCorrect e p` is the
correct-prediction count the full validation pass observes on parameters
`p`. -/
structure EpochFn where
  trainPhase : ℕ → ℕ → ℕ
  valCorrect : ℕ → ℕ → ℕ

/-- The loop state of `train_model`: the live parameters, the retained
`best_model_wts` deep copy and the retained `best_acc`. -/
structure TrainState where
  params : ℕ
  bestWts : ℕ
  bestAcc : ℚ
deriving DecidableEq

/-- The value `avg_acc_val = acc_val / dataset_sizes[VAL]` printed at the end
of epoch `e` when the epoch starts from parameters `p`. -/
def epochAcc (E : EpochFn) (valSize : ℕ) (e : ℕ) (p : ℕ) : ℚ :=
  (E.valCorrect e (E.trainPhase e p) : ℚ) / (valSize : ℚ)

/-- One epoch of `train_model`: the half-sized training pass updates the
parameters, the validation pass yields `avg_acc_val`, and
`if avg_acc_val > best_acc:` both `best_acc` and the `best_model_wts` deep
copy are replaced. -/
def epochStep (E : EpochFn) (valSize : ℕ) (s : TrainState) (e : ℕ) : TrainState :=
  if s.bestAcc < epochAcc E valSize e s.params then
    { params := E.trainPhase e s.params,
      bestWts := E.trainPhase e s.params,
      bestAcc := epochAcc E valSize e s.params }
  else
    { params := E.trainPhase e s.params,
      bestWts := s.bestWts,
      bestAcc := s.bestAcc }

/-- Entry state of `train_model`:
`best_model_wts = copy.deepcopy(vgg.state_dict())` and `best_acc = 0.0`. -/
def initTrainState (w0 : ℕ) : TrainState :=
  { params := w0, bestWts := w0, bestAcc := 0 }

/-- The loop state after `for epoch in range(num_epochs)` finishes. -/
def finalTrainState (E : EpochFn) (valSize numEpochs w0 : ℕ) : TrainState :=
  (List.range numEpochs).foldl (epochStep E valSize) (initTrainState w0)

/-- The parameters `train_model` returns: after the epoch loop it executes
`vgg.load_state_dict(best_model_wts)` and `return vgg`, so the returned
model carries the retained best snapshot. -/
def trainModel (E : EpochFn) (valSize numEpochs w0 : ℕ) : ℕ :=
  (finalTrainState E valSize numEpochs w0).bestWts

/-- The trace of `avg_acc_val` values recorded at the end of the given
epochs, starting from loop state `s`. -/
def runAccs (E : EpochFn) (valSize : ℕ) : List ℕ → TrainState → List ℚ
  | [], _ => []
  | e :: es, s => epochAcc E valSize e s.params :: runAccs E valSize es (epochStep E valSize s e)

/-- The `avg_acc_val` values recorded at the end of each of the
`numEpochs` epochs of a `train_model` run. -/
def recordedAccs (E : EpochFn) (valSize numEpochs w0 : ℕ) : List ℚ :=
  runAccs E valSize (List.range numEpochs) (initTrainState w0)

theorem epochStep_bestAcc_le (E : EpochFn) (valSize : ℕ) (s : TrainState) (e : ℕ) :
    s.bestAcc ≤ (epochStep E valSize s e).bestAcc := by
  unfold epochStep
  by_cases h : s.bestAcc < epochAcc E valSize e s.params
  · rw [if_pos h]
    exact le_of_lt h
  · rw [if_neg h]

theorem epochStep_acc_le (E : EpochFn) (valSize : ℕ) (s : TrainState) (e : ℕ) :
    epochAcc E valSize e s.params ≤ (epochStep E valSize s e).bestAcc := by
  unfold epochStep
  by_cases h : s.bestAcc < epochAcc E valSize e s.params
  · rw [if_pos h]
  · rw [if_neg h]
    exact not_lt.mp h

theorem bestAcc_mono (E : EpochFn) (valSize : ℕ) :
    ∀ (es : List ℕ) (s : TrainState),
      s.bestAcc ≤ (es.foldl (epochStep E valSize) s).bestAcc := by
  intro es
  induction es with
  | nil => intro s; exact le_refl _
  | cons e es ih =>
    intro s
    rw [List.foldl_cons]
    exact le_trans (epochStep_bestAcc_le E valSize s e) (ih (epochStep E valSize s e))

theorem runAccs_all_le (E : EpochFn) (valSize : ℕ) :
    ∀ (es : List ℕ) (s : TrainState) (a : ℚ), a ∈ runAccs E valSize es s →
      a ≤ (es.foldl (epochStep E valSize) s).bestAcc := by
  intro es
  induction es with
  | nil =>
    intro s a ha
    exact absurd ha (List.not_mem_nil a)
  | cons e es ih =>
    intro s a ha
    rw [List.foldl_cons]
    simp only [runAccs, List.mem_cons] at ha
    rcases ha with h | h
    · subst h
      exact le_trans (epochStep_acc_le E valSize s e) (bestAcc_mono E valSize es _)
    · exact ih (epochStep E valSize s e) a h

/-- C4: for every run of the Training Loop, every `avg_acc_val` recorded at
an epoch end is at most the final retained `best_acc` — the accuracy of the
best snapshot — and after the last epoch `train_model` restores the best
snapshot and returns it. -/
theorem best_snapshot_dominates_epochs (E : EpochFn) (valSize numEpochs w0 : ℕ)
    (a : ℚ) (ha : a ∈ recordedAccs E valSize numEpochs w0) :
    a ≤ (finalTrainState E valSize numEpochs w0).bestAcc
    ∧ trainModel E valSize numEpochs w0 = (finalTrainState E valSize numEpochs w0).bestWts :=
  ⟨runAccs_all_le E valSize (List.range numEpochs) (initTrainState w0) a ha, rfl⟩

/-- A concrete epoch behavior: each epoch increments the parameters and the
validation pass always gets exactly one prediction right. -/
def demoEpochFn : EpochFn :=
  { trainPhase := fun _ p => p + 1, valCorrect := fun _ _ => 1 }

/-- Witness for the C4 theorem: a 2-epoch run of `demoEpochFn` on a
1-sample validation split, starting from parameter token 5, records
accuracy 1 at each epoch end. -/
theorem best_snapshot_dominates_epochs_witness :
    (1 : ℚ) ≤ (finalTrainState demoEpochFn 1 2 5).bestAcc
    ∧ trainModel demoEpochFn 1 2 5 = (finalTrainState demoEpochFn 1 2 5).bestWts :=
  best_snapshot_dominates_epochs demoEpochFn 1 2 5 1
    (by simp [recordedAccs, runAccs, epochAcc, demoEpochFn])

theorem no_improvement_keeps_best (E : EpochFn) (valSize : ℕ) :
    ∀ (es : List ℕ) (s : TrainState),
      (∀ a ∈ runAccs E valSize es s, a ≤ 0) → 0 ≤ s.bestAcc →
      (es.foldl (epochStep E valSize) s).bestWts = s.bestWts
      ∧ (es.foldl (epochStep E valSize) s).bestAcc = s.bestAcc := by
  intro es
  induction es with
  | nil =>
    intro s _ _
    exact ⟨rfl, rfl⟩
  | cons e es ih =>
    intro s h h0
    have hacc : epochAcc E valSize e s.params ≤ 0 := by
      refine h _ ?_
      simp only [runAccs]
      exact List.mem_cons_self _ _
    have hnot : ¬ s.bestAcc < epochAcc E valSize e s.params :=
      not_lt.mpr (le_trans hacc h0)
    have hstep : epochStep E valSize s e
        = { params := E.trainPhase e s.params, bestWts := s.bestWts, bestAcc := s.bestAcc } := by
      unfold epochStep
      rw [if_neg hnot]
    have htail : ∀ a ∈ runAccs E valSize es (epochStep E valSize s e), a ≤ 0 := by
      intro a ha
      refine h a ?_
      simp only [runAccs, List.mem_cons]
      exact Or.inr ha
    rw [List.foldl_cons]
    obtain ⟨h1, h2⟩ := ih (epochStep E valSize s e) htail (by rw [hstep]; exact h0)
    rw [h1, h2, hstep]
    exact ⟨rfl, rfl⟩

/-- C10: when no epoch records a validation accuracy strictly greater than
zero, the strict `avg_acc_val > best_acc` comparison never replaces the
initial deep copy of the entry weights, so `train_model` returns the model
with exactly the parameter values it had on entry. -/
theorem zero_accuracy_returns_entry_weights (E : EpochFn) (valSize numEpochs w0 : ℕ)
    (h : ∀ a ∈ recordedAccs E valSize numEpochs w0, a ≤ 0) :
    trainModel E valSize numEpochs w0 = w0 :=
  (no_improvement_keeps_best E valSize (List.range numEpochs) (initTrainState w0)
    h (le_refl 0)).1

/-- An epoch behavior whose validation pass never gets a prediction right. -/
def zeroAccEpochFn : EpochFn :=
  { trainPhase := fun _ p => p + 1, valCorrect := fun _ _ => 0 }

/-- Witness for the C10 theorem: a 2-epoch run with all-zero validation
accuracy returns the entry parameter token 5 unchanged. -/
theorem zero_accuracy_returns_entry_weights_witness :
    trainModel zeroAccEpochFn 1 2 5 = 5 :=
  zero_accuracy_returns_entry_weights zeroAccEpochFn 1 2 5
    (by simp [recordedAccs, runAccs, epochAcc, zeroAccEpochFn])

/-! ## The Visualization Utility `visualize_model` -/

/-- The observable state `visualize_model` manipulates: the model's
train-mode flag (`vgg.training`) and the count of test images displayed so
far (`images_so_far`). -/
structure VisState where
  training : Bool
  shown : ℕ
deriving DecidableEq

/-- The display loop of `visualize_model` over the test loader's batch
sizes: each iteration calls `show_databatch` on the whole batch (all `size`
images, as ground truth and again as predictions), adds `size` to
`images_so_far`, and then breaks once `images_so_far >= num_images`.  The
loop body never touches the train-mode flag. -/
def visLoop (numImages : ℕ) (s : VisState) : List ℕ → VisState
  | [] => s
  | size :: rest =>
    if numImages ≤ s.shown + size then { s with shown := s.shown + size }
    else visLoop numImages { s with shown := s.shown + size } rest

/-- `visualize_model`: `was_training = vgg.training` is saved, the model is
switched to evaluation mode (`vgg.train(False); vgg.eval()`), the display
loop runs, and after the loop `vgg.train(mode=was_training)` restores the
saved flag. -/
def visualizeModel (numImages : ℕ) (batchSizes : List ℕ) (training0 : Bool) : VisState :=
  let s := visLoop numImages { training := false, shown := 0 } batchSizes
  { s with training := training0 }

/-- C9: the model's train-mode flag on return from `visualize_model` equals
its value on entry, whatever the image budget and the delivered batches:
the flag is saved first and restored after the loop, so visualization leaves
the model's mode unchanged. -/
theorem visualize_restores_training_mode (numImages : ℕ) (batchSizes : List ℕ)
    (training0 : Bool) :
    (visualizeModel numImages batchSizes training0).training = training0 := rfl

/-- C8 counterexample: with the function's own default budget of 6 images
and the notebook's batch size 8, the first whole batch is displayed before
the break test runs, so 8 > 6 test images are shown: the display count is
not bounded by the caller-supplied image count. -/
theorem visualize_exceeds_budget :
    ¬ (visualizeModel 6 [8, 8] true).shown ≤ 6 := by decide

theorem visLoop_lt (numImages bound : ℕ) :
    ∀ (sizes : List ℕ) (s : VisState), s.shown < numImages →
      (∀ b ∈ sizes, b ≤ bound) →
      (visLoop numImages s sizes).shown < numImages + bound := by
  intro sizes
  induction sizes with
  | nil =>
    intro s hs _
    exact Nat.lt_of_lt_of_le hs (Nat.le_add_right _ _)
  | cons size rest ih =>
    intro s hs hb
    have hsize : size ≤ bound := hb size (List.mem_cons_self _ _)
    have hrest : ∀ b ∈ rest, b ≤ bound := fun b hbm => hb b (List.mem_cons_of_mem _ hbm)
    unfold visLoop
    by_cases hbreak : numImages ≤ s.shown + size
    · rw [if_pos hbreak]
      show s.shown + size < numImages + bound
      omega
    · rw [if_neg hbreak]
      exact ih { s with shown := s.shown + size } (not_le.mp hbreak) hrest

/-- C8 amended: the display count is not bounded by the requested count `n`
itself but by `n + batch_size - 1`: whole batches are shown until the
running total first reaches `n`, so for a positive budget and batches of at
most `bs` images, strictly fewer than `n + bs` test images are displayed. -/
theorem visualize_budget_bound (numImages bound : ℕ) (batchSizes : List ℕ)
    (training0 : Bool) (h1 : 1 ≤ numImages) (h2 : ∀ b ∈ batchSizes, b ≤ bound) :
    (visualizeModel numImages batchSizes training0).shown < numImages + bound := by
  unfold visualizeModel
  exact visLoop_lt numImages bound batchSizes { training := false, shown := 0 } h1 h2

/-- Witness for the C8 amended theorem: requesting 6 images over batches of
size 8 displays fewer than 14 images (in fact exactly 8). -/
theorem visualize_budget_bound_witness :
    (visualizeModel 6 [8, 8] true).shown < 6 + 8 :=
  visualize_budget_bound 6 8 [8, 8] true (by decide) (by decide)

end OCTRetina
